import Mathlib

/-!
Verification of the steel-shipment pricing tool (src/人工发货价差表生成工具.py).

The engine is embedded shallowly:
* money and tonnage amounts are exact rationals (the Python code uses floats;
  none of the verified properties depends on float rounding),
* Python dicts become association lists or `Option`-valued lookup functions,
* a `try/except KeyError` around a lookup becomes the `none` branch of that
  lookup,
* Python `int()` truncation is `pyTrunc`, `round(x, n)` is `roundTo n`
  (decimal rounding on exact rationals),
* the pandas sort (`sort_values` on 楼号 asc / 规格排序 asc / 价差 desc) becomes
  an insertion sort by the same lexicographic key; the groupby `transform`
  marking the per-(楼号, 规格) maximum differential becomes `setMaxFlags`.
-/

attribute [local semireducible] Rat.add Rat.mul Rat.sub Rat.inv

abbrev Mill := String
abbrev Spec := String
abbrev Building := String
abbrev LenLabel := String
abbrev SteelType := String

/-- Python `int()` applied to a rational: truncation toward zero. -/
def pyTrunc (q : ℚ) : ℤ := if 0 ≤ q then ⌊q⌋ else ⌈q⌉

/-- Python `round(x, n)` modelled on exact rationals (round half up; the
Python float version rounds half to even, but no verified property depends
on behaviour at exact half boundaries). -/
def roundTo (n : ℕ) (q : ℚ) : ℚ := (round (q * (10 ^ n : ℚ)) : ℚ) / (10 ^ n : ℚ)

/-- `calculate_ship_pieces(tonnage, weight, tolerance)` (source lines 85-109):
piece count and actual shipped tonnage. -/
def calculate_ship_pieces (tonnage weight tolerance : ℚ) : ℤ × ℚ :=
  if weight ≤ 0 ∨ tonnage ≤ 0 then (0, 0)
  else
    let basePieces : ℤ := pyTrunc (tonnage / weight)
    let baseWeight : ℚ := (basePieces : ℚ) * weight
    let diff : ℚ := tonnage - baseWeight
    if basePieces = 0 then (1, weight)
    else if tolerance < diff then (basePieces + 1, ((basePieces : ℚ) + 1) * weight)
    else (basePieces, baseWeight)

/-- The mills eligible for the 12m surcharge (source line 74). -/
def surchargeMills : List Mill := ["徐钢", "河南闽源", "中新"]

/-- The specifications eligible for the 12m surcharge (source lines 76-77). -/
def surchargeSpecs : List Spec :=
  ["HRB400E12", "HRB400E14", "HRB400E16", "HRB400E18",
   "HRB400E20", "HRB400E22", "HRB400E25"]

/-- The surcharge predicate of source lines 73-77: enabled, eligible mill,
length 12m, eligible spec. -/
def surchargeApplies (enable : Bool) (mill : Mill) (length : LenLabel) (spec : Spec) : Bool :=
  enable && surchargeMills.contains mill && (length == "12m") && surchargeSpecs.contains spec

/-- One price-kind table of `pricing_rules[mill][steel_type]`: the per-spec
additive adjustments.  `none` models the price-kind key (网价 / 到货价) being
absent. -/
structure PriceRules where
  net : Option (List (Spec × ℚ))
  arrival : Option (List (Spec × ℚ))

/-- `dict.get(spec, 0)` on an adjustment table. -/
def lookupAddition (m : List (Spec × ℚ)) (spec : Spec) : ℚ := (m.lookup spec).getD 0

/-- `calculate_price_diff` (source lines 59-82).  Returns
(differential, net price, arrival price).  The `try/except KeyError` around
`pricing_rules[steel_mill][steel_type]` is the `none` branch of the `rules`
lookup; the explicit 网价/到货价 presence check is the inner `Option` match. -/
def calculate_price_diff (rules : Mill → SteelType → Option PriceRules)
    (mill : Mill) (steelType : SteelType) (spec : Spec) (length : LenLabel)
    (baseNet baseArrival : ℚ) (enable : Bool) : ℚ × ℚ × ℚ :=
  match rules mill steelType with
  | none => (0, baseNet, baseArrival)
  | some pr =>
    match pr.net, pr.arrival with
    | some netMap, some arrivalMap =>
      let netPrice0 := baseNet + lookupAddition netMap spec
      let arrivalPrice := baseArrival + lookupAddition arrivalMap spec
      let netPrice :=
        if surchargeApplies enable mill length spec then netPrice0 + 30 else netPrice0
      (netPrice - arrivalPrice, netPrice, arrivalPrice)
    | _, _ => (0, baseNet, baseArrival)

/-- The coil-type (盘螺) specifications (source lines 116 and 159). -/
def coilSpecs : List Spec := ["HRB400E6", "HRB400E8", "HRB400E10"]

/-- `get_weight` (source lines 112-120): coil specs use the empty length key;
the `except KeyError` is the `none` result of the lookup function. -/
def get_weight (mill : Mill) (spec : Spec) (length : LenLabel)
    (weights : Mill → Spec → LenLabel → Option ℚ) : Option ℚ :=
  if spec ∈ coilSpecs then weights mill spec "" else weights mill spec length

/-- Steel type derived from the spec (source line 159). -/
def steelTypeOf (spec : Spec) : SteelType :=
  if spec ∈ coilSpecs then "盘螺" else "螺纹钢"

/-- Value of a digit string (source: `int(''.join(filter(str.isdigit, spec)))`). -/
def digitsVal (l : List Char) : ℕ := l.foldl (fun n c => 10 * n + (c.toNat - 48)) 0

/-- `规格排序` (source lines 142, 193, 219): the integer formed by all digit
characters of the spec in order, 0 if the spec has no digit. -/
def specSortKey (spec : Spec) : ℤ :=
  let ds := spec.data.filter Char.isDigit
  if ds.isEmpty then 0 else (digitsVal ds : ℤ)


section Table

/-- Strict lexicographic comparison of char lists by code point; Python
compares strings the same way. -/
def charListLt : List Char → List Char → Bool
  | [], [] => false
  | [], _ :: _ => true
  | _ :: _, [] => false
  | a :: as, b :: bs =>
    if a < b then true else if b < a then false else charListLt as bs

/-- Lexicographic order on strings by code point, the order pandas uses when
sorting the 楼号 column of Python strings. -/
def strLt (a b : String) : Bool := charListLt a.data b.data

/-- One row of the generated table (the dicts appended to `all_candidates`,
source lines 139-155, 195-211 and 216-232). -/
structure Row where
  building : Building
  spec : Spec
  specSort : ℤ
  length : LenLabel
  mill : Mill
  netPrice : ℚ
  arrivalPrice : ℚ
  priceDiff : ℚ
  pieceWeight : ℚ
  planTonnage : ℚ
  shipPieces : ℤ
  shipWeight : ℚ
  profit : ℚ
  isMaxDiff : Bool
  isOutOfStock : Bool
deriving DecidableEq, Repr

/-- `base_prices_dict[mill][steel_type]`: the strictly positive base 网价 and
到货价 loaded from the daily CSV. -/
structure BasePrice where
  net : ℚ
  arrival : ℚ

/-- The engine's input tables and configuration. -/
structure Inputs where
  plan : List (Building × List (Spec × ℚ))
  avail : List (Mill × List (Spec × List LenLabel))
  weights : Mill → Spec → LenLabel → Option ℚ
  rules : Mill → SteelType → Option PriceRules
  basePrices : Mill → SteelType → Option BasePrice
  enable12m : Bool
  tolerance : ℚ

/-- `all_available_specs` (source lines 130-132): every spec offered by some
mill. -/
def allAvailableSpecs (avail : List (Mill × List (Spec × List LenLabel))) : List Spec :=
  avail.flatMap (fun e => e.2.map Prod.fst)

/-- `[mill for mill in available_specs if spec in available_specs[mill]]`
(source line 160). -/
def candidateMills (avail : List (Mill × List (Spec × List LenLabel))) (spec : Spec) :
    List Mill :=
  (avail.filter (fun e => decide (spec ∈ e.2.map Prod.fst))).map Prod.fst

/-- `available_specs_set[steel_mill].get(spec, set())` (source lines 126-127
and 167): the lengths a mill offers for a spec, deduplicated because the
source turns them into a Python set. -/
def lengthsFor (avail : List (Mill × List (Spec × List LenLabel))) (mill : Mill)
    (spec : Spec) : List LenLabel :=
  ((((avail.lookup mill).getD []).lookup spec).getD []).dedup

/-- The valid candidate row for one (mill, length) pair (the dict appended at
source lines 195-211). -/
def mkValidRow (I : Inputs) (building : Building) (spec : Spec) (tonnage : ℚ)
    (mill : Mill) (length : LenLabel) : Row :=
  let r := calculate_price_diff I.rules mill (steelTypeOf spec) spec length
    (((I.basePrices mill (steelTypeOf spec)).getD ⟨0, 0⟩).net)
    (((I.basePrices mill (steelTypeOf spec)).getD ⟨0, 0⟩).arrival) I.enable12m
  let w := (get_weight mill spec length I.weights).getD 0
  let p := calculate_ship_pieces tonnage w I.tolerance
  { building := building, spec := spec, specSort := specSortKey spec,
    length := length, mill := mill,
    netPrice := r.2.1, arrivalPrice := r.2.2, priceDiff := r.1,
    pieceWeight := roundTo 3 w, planTonnage := roundTo 2 tonnage,
    shipPieces := p.1, shipWeight := roundTo 2 p.2,
    profit := roundTo 2 (r.1 * tonnage),
    isMaxDiff := false, isOutOfStock := false }

/-- The loop body of source lines 163-212: all valid candidate rows of one
demand line (mill offers the spec, usable base prices, positive differential,
present positive weight). -/
def validRowsFor (I : Inputs) (building : Building) (spec : Spec) (tonnage : ℚ) :
    List Row :=
  (candidateMills I.avail spec).flatMap (fun mill =>
    match I.basePrices mill (steelTypeOf spec) with
    | none => []
    | some bp =>
      (lengthsFor I.avail mill spec).filterMap (fun length =>
        let r := calculate_price_diff I.rules mill (steelTypeOf spec) spec length
          bp.net bp.arrival I.enable12m
        if r.1 ≤ 0 then none
        else
          match get_weight mill spec length I.weights with
          | none => none
          | some w =>
            if w ≤ 0 then none
            else some (mkValidRow I building spec tonnage mill length)))

/-- A degenerate row (无库存, source lines 139-155, or 无有效价差, source
lines 216-232): label in the 钢厂 column, zero prices, pieces and profit. -/
def degRow (label : Mill) (building : Building) (spec : Spec) (tonnage : ℚ) : Row :=
  { building := building, spec := spec, specSort := specSortKey spec, length := "",
    mill := label, netPrice := 0, arrivalPrice := 0, priceDiff := 0, pieceWeight := 0,
    planTonnage := roundTo 2 tonnage, shipPieces := 0, shipWeight := 0, profit := 0,
    isMaxDiff := false, isOutOfStock := true }

/-- All rows emitted for one (building, spec, tonnage) demand line
(source lines 134-232). -/
def lineRows (I : Inputs) (building : Building) (spec : Spec) (tonnage : ℚ) :
    List Row :=
  if spec ∈ allAvailableSpecs I.avail then
    let valid := validRowsFor I building spec tonnage
    if valid.isEmpty then [degRow "无有效价差" building spec tonnage] else valid
  else [degRow "无库存" building spec tonnage]

/-- `all_candidates` before sorting (the full plan loop, source lines
134-232). -/
def rawCandidates (I : Inputs) : List Row :=
  I.plan.flatMap (fun be => be.2.flatMap (fun st => lineRows I be.1 st.1 st.2))

/-- The pandas sort key of source lines 240-243: 楼号 ascending, 规格排序
ascending, 价差 descending. -/
def rowLe (a b : Row) : Prop :=
  strLt a.building b.building = true ∨
    (a.building = b.building ∧
      (a.specSort < b.specSort ∨ (a.specSort = b.specSort ∧ b.priceDiff ≤ a.priceDiff)))

instance : DecidableRel rowLe := fun a b => by unfold rowLe; infer_instance

/-- `df.sort_values(['楼号', '规格排序', '价差（元/吨）'], ascending=[True, True,
False])` (source lines 240-243), modelled as an insertion sort. -/
def sortedCandidates (I : Inputs) : List Row := List.insertionSort rowLe (rawCandidates I)

/-- The 价差 values of one (楼号, 规格) group of a table. -/
def groupDiffs (rows : List Row) (b : Building) (s : Spec) : List ℚ :=
  (rows.filter (fun r => decide (r.building = b ∧ r.spec = s))).map (fun r => r.priceDiff)

/-- `x.max()` of a pandas series, as a fold (0 for the empty list, which the
source never takes the max of). -/
def maxD : List ℚ → ℚ
  | [] => 0
  | h :: t => t.foldl max h

/-- One row's `is_max_diff` assignment: its 价差 equals the maximum 价差 of
its (楼号, 规格) group within `rows`. -/
def applyFlag (rows : List Row) (r : Row) : Row :=
  { r with isMaxDiff := decide (r.priceDiff = maxD (groupDiffs rows r.building r.spec)) }

/-- `df['is_max_diff'] = df.groupby(['楼号', '规格'])['价差（元/吨）']
.transform(lambda x: x == x.max())` (source line 246). -/
def setMaxFlags (rows : List Row) : List Row :=
  rows.map (applyFlag rows)

/-- `generate_manual_pricing_table` (source lines 122-248): enumerate, sort,
then mark the per-group maximum differential. -/
def generate_manual_pricing_table (I : Inputs) : List Row :=
  setMaxFlags (sortedCandidates I)

/-- `valid_table = manual_table[~manual_table['is_out_of_stock']]` (source
line 551). -/
def validTable (rows : List Row) : List Row := rows.filter (fun r => !r.isOutOfStock)

/-- The (楼号, 规格) group keys of a table, in order of first appearance. -/
def groupKeys (rows : List Row) : List (Building × Spec) :=
  (rows.map (fun r => (r.building, r.spec))).dedup

/-- The rows of one (楼号, 规格) group, in table order. -/
def groupRows (rows : List Row) (k : Building × Spec) : List Row :=
  rows.filter (fun r => decide (r.building = k.1 ∧ r.spec = k.2))

/-- `groupby(['楼号', '规格'])['价差（元/吨）'].idxmax()` for one group
(source line 555): the first row of the group attaining the group maximum. -/
def firstMaxRow (rows : List Row) (k : Building × Spec) : Option Row :=
  let g := groupRows rows k
  g.find? (fun r => decide (r.priceDiff = maxD (g.map (fun x => x.priceDiff))))

/-- `summary_table = valid_table.loc[idx]` (source lines 555-556): one row per
valid (楼号, 规格) group, the first one at the group's maximum differential. -/
def summaryRows (I : Inputs) : List Row :=
  let valid := validTable (generate_manual_pricing_table I)
  (groupKeys valid).filterMap (fun k => firstMaxRow valid k)

/-- The aggregate totals shown by `main` (source lines 558-567). -/
structure Summary where
  planTotal : ℚ
  piecesTotal : ℤ
  shipTotal : ℚ
  profitTotal : ℚ
deriving DecidableEq, Repr

/-- The 计划总吨位 / 发货总件数 / 发货总吨位 / 总利润 sums of source lines
558-567 (with the empty-table branch of lines 563-567 subsumed by empty
sums). -/
def mainSummary (I : Inputs) : Summary :=
  let sel := summaryRows I
  { planTotal := (sel.map (fun r => r.planTonnage)).sum,
    piecesTotal := (sel.map (fun r => r.shipPieces)).sum,
    shipTotal := (sel.map (fun r => r.shipWeight)).sum,
    profitTotal := (sel.map (fun r => r.profit)).sum }

/-- The (mill, length) pairs that survive the enumeration filters of one
demand line; tonnage plays no role in the filters. -/
def validPairs (I : Inputs) (spec : Spec) : List (Mill × LenLabel) :=
  (candidateMills I.avail spec).flatMap (fun mill =>
    match I.basePrices mill (steelTypeOf spec) with
    | none => []
    | some bp =>
      ((lengthsFor I.avail mill spec).filter (fun length =>
        let r := calculate_price_diff I.rules mill (steelTypeOf spec) spec length
          bp.net bp.arrival I.enable12m
        !decide (r.1 ≤ 0) &&
          (match get_weight mill spec length I.weights with
           | none => false
           | some w => !decide (w ≤ 0)))).map (fun length => (mill, length)))

/-- The condition under which a demand line degenerates: the spec is offered
by no mill, or every enumerated pair is filtered out. -/
def degCond (I : Inputs) (s : Spec) : Prop :=
  s ∉ allAvailableSpecs I.avail ∨ validPairs I s = []

instance (I : Inputs) (s : Spec) : Decidable (degCond I s) := by
  unfold degCond; infer_instance

end Table

section SpecWordedDefs

/-- Following the spec's words ("specification sort-key (numeric suffix, 0 if
absent)"): the value of the trailing run of digit characters, 0 when there is
none.  To be compared against `specSortKey`, which the source computes from
all digit characters. -/
def specNumericSuffix (spec : Spec) : ℤ :=
  (digitsVal ((spec.data.reverse.takeWhile Char.isDigit).reverse) : ℤ)

/-- The differential the enumerator computes for one (mill, length) option of
a demand line (0 when the mill has no usable base prices). -/
def lineDiffAt (I : Inputs) (s : Spec) (mill : Mill) (length : LenLabel) : ℚ :=
  match I.basePrices mill (steelTypeOf s) with
  | none => 0
  | some bp =>
    (calculate_price_diff I.rules mill (steelTypeOf s) s length bp.net bp.arrival
      I.enable12m).1

/-- Following the claim's words: the demand line has zero available mills or
zero positive differentials. -/
def noMillOrNoPositiveDiff (I : Inputs) (s : Spec) : Prop :=
  candidateMills I.avail s = [] ∨
    ∀ mill ∈ candidateMills I.avail s, ∀ length ∈ lengthsFor I.avail mill s,
      lineDiffAt I s mill length ≤ 0

instance (I : Inputs) (s : Spec) : Decidable (noMillOrNoPositiveDiff I s) := by
  unfold noMillOrNoPositiveDiff
  infer_instance

end SpecWordedDefs

section ConcreteInputs

/-- A plan with one demand line and two mills that tie at the maximum
differential 10: both rows get flagged, while the summary picks one. -/
def inputTie : Inputs :=
  { plan := [("1", [("HRB400E12", 10)])],
    avail := [("甲厂", [("HRB400E12", ["9m"])]), ("乙厂", [("HRB400E12", ["9m"])])],
    weights := fun m s l =>
      if s = "HRB400E12" ∧ l = "9m" ∧ (m = "甲厂" ∨ m = "乙厂") then some 2 else none,
    rules := fun m st =>
      if (m = "甲厂" ∨ m = "乙厂") ∧ st = "螺纹钢" then some ⟨some [], some []⟩ else none,
    basePrices := fun m st =>
      if (m = "甲厂" ∨ m = "乙厂") ∧ st = "螺纹钢" then some ⟨100, 90⟩ else none,
    enable12m := true,
    tolerance := 1 }

/-- The first generated row of `inputTie` (mill 甲厂). -/
def rowTieA : Row :=
  { building := "1", spec := "HRB400E12", specSort := 40012, length := "9m",
    mill := "甲厂", netPrice := 100, arrivalPrice := 90, priceDiff := 10,
    pieceWeight := 2, planTonnage := 10, shipPieces := 5, shipWeight := 10,
    profit := 100, isMaxDiff := true, isOutOfStock := false }

/-- A plan with one demand line and exactly one valid (mill, length) pair. -/
def inputSingle : Inputs :=
  { plan := [("1", [("HRB400E12", 10)])],
    avail := [("甲厂", [("HRB400E12", ["9m"])])],
    weights := fun m s l =>
      if m = "甲厂" ∧ s = "HRB400E12" ∧ l = "9m" then some 2 else none,
    rules := fun m st =>
      if m = "甲厂" ∧ st = "螺纹钢" then some ⟨some [], some []⟩ else none,
    basePrices := fun m st =>
      if m = "甲厂" ∧ st = "螺纹钢" then some ⟨100, 90⟩ else none,
    enable12m := true,
    tolerance := 1 }

/-- The single generated row of `inputSingle`. -/
def rowSingle : Row :=
  { building := "1", spec := "HRB400E12", specSort := 40012, length := "9m",
    mill := "甲厂", netPrice := 100, arrivalPrice := 90, priceDiff := 10,
    pieceWeight := 2, planTonnage := 10, shipPieces := 5, shipWeight := 10,
    profit := 100, isMaxDiff := true, isOutOfStock := false }

/-- A plan whose only spec is offered by no mill: the run produces one
degenerate 无库存 row. -/
def inputNoStock : Inputs :=
  { plan := [("1", [("X", 5)])],
    avail := [],
    weights := fun _ _ _ => none,
    rules := fun _ _ => none,
    basePrices := fun _ _ => none,
    enable12m := true,
    tolerance := 1 }

/-- The single degenerate row of `inputNoStock`. -/
def rowNoStock : Row :=
  { building := "1", spec := "X", specSort := 0, length := "",
    mill := "无库存", netPrice := 0, arrivalPrice := 0, priceDiff := 0,
    pieceWeight := 0, planTonnage := 5, shipPieces := 0, shipWeight := 0,
    profit := 0, isMaxDiff := true, isOutOfStock := true }

end ConcreteInputs

section BasicFacts

theorem pyTrunc_of_nonneg {q : ℚ} (h : 0 ≤ q) : pyTrunc q = ⌊q⌋ := by
  simp [pyTrunc, h]

/-- Full case analysis of `calculate_ship_pieces` on positive and
non-positive inputs. -/
theorem calculate_ship_pieces_cases (t w tol : ℚ) :
    ((t ≤ 0 ∨ w ≤ 0) → calculate_ship_pieces t w tol = (0, 0)) ∧
    (0 < t → 0 < w →
      (⌊t / w⌋ = 0 → calculate_ship_pieces t w tol = (1, w)) ∧
      (⌊t / w⌋ ≠ 0 → tol < t - (⌊t / w⌋ : ℚ) * w →
        calculate_ship_pieces t w tol = (⌊t / w⌋ + 1, ((⌊t / w⌋ : ℚ) + 1) * w)) ∧
      (⌊t / w⌋ ≠ 0 → t - (⌊t / w⌋ : ℚ) * w ≤ tol →
        calculate_ship_pieces t w tol = (⌊t / w⌋, (⌊t / w⌋ : ℚ) * w)) ∧
      1 ≤ (calculate_ship_pieces t w tol).1) := by
  constructor
  · intro h
    have h' : w ≤ 0 ∨ t ≤ 0 := h.symm
    simp [calculate_ship_pieces, if_pos h']
  · intro ht hw
    have hcond : ¬ (w ≤ 0 ∨ t ≤ 0) := by
      push_neg
      exact ⟨hw, ht⟩
    have hq : 0 ≤ t / w := le_of_lt (div_pos ht hw)
    have htr : pyTrunc (t / w) = ⌊t / w⌋ := pyTrunc_of_nonneg hq
    have hfl : 0 ≤ ⌊t / w⌋ := Int.floor_nonneg.mpr hq
    refine ⟨?_, ?_, ?_, ?_⟩
    · intro h0
      simp [calculate_ship_pieces, if_neg hcond, htr, h0]
    · intro h0 hgt
      rw [calculate_ship_pieces, if_neg hcond]
      simp only [htr, if_neg h0]
      rw [if_pos hgt]
    · intro h0 hle
      rw [calculate_ship_pieces, if_neg hcond]
      simp only [htr, if_neg h0]
      rw [if_neg (not_lt.mpr hle)]
    · rw [calculate_ship_pieces, if_neg hcond]
      simp only [htr]
      by_cases h0 : ⌊t / w⌋ = 0
      · simp [h0]
      · have h1 : 1 ≤ ⌊t / w⌋ := lt_of_le_of_ne hfl (Ne.symm h0)
        by_cases hgt : tol < t - (⌊t / w⌋ : ℚ) * w
        · simp only [if_neg h0, if_pos hgt]
          omega
        · simp only [if_neg h0, if_neg hgt]
          exact h1

/-- Claim C1: `calculate_ship_pieces` returns (0,0) when tonnage ≤ 0 or
unitWeight ≤ 0; otherwise with basePieces = ⌊tonnage / unitWeight⌋ it returns
`(1, w)` when basePieces = 0, rounds up one piece when the shortfall exceeds
the tolerance, returns `(basePieces, basePieces·w)` otherwise, and the piece
count is at least 1 for positive inputs. -/
theorem calculate_ship_pieces_spec (t w tol : ℚ) :
    ((t ≤ 0 ∨ w ≤ 0) → calculate_ship_pieces t w tol = (0, 0)) ∧
    (0 < t → 0 < w →
      (⌊t / w⌋ = 0 → calculate_ship_pieces t w tol = (1, w)) ∧
      (⌊t / w⌋ ≠ 0 → tol < t - (⌊t / w⌋ : ℚ) * w →
        calculate_ship_pieces t w tol = (⌊t / w⌋ + 1, ((⌊t / w⌋ : ℚ) + 1) * w)) ∧
      (⌊t / w⌋ ≠ 0 → t - (⌊t / w⌋ : ℚ) * w ≤ tol →
        calculate_ship_pieces t w tol = (⌊t / w⌋, (⌊t / w⌋ : ℚ) * w)) ∧
      1 ≤ (calculate_ship_pieces t w tol).1) :=
  calculate_ship_pieces_cases t w tol

/-- Witness for `calculate_ship_pieces_spec`: the spec's own worked example
tonnage 11.2, weight 2, tolerance 1 gives 6 pieces and 12 tons. -/
theorem calculate_ship_pieces_spec_witness :
    (0 : ℚ) < 56 / 5 ∧ (0 : ℚ) < 2 ∧ ⌊(56 / 5 : ℚ) / 2⌋ ≠ 0 ∧
      (1 : ℚ) < 56 / 5 - (⌊(56 / 5 : ℚ) / 2⌋ : ℚ) * 2 ∧
      calculate_ship_pieces (56 / 5) 2 1 = (6, 12) ∧
      1 ≤ (calculate_ship_pieces (56 / 5) 2 1).1 := by
  have h := (calculate_ship_pieces_spec (56 / 5) 2 1).2 (by decide) (by decide)
  refine ⟨by decide, by decide, by decide, by decide, ?_, h.2.2.2⟩
  have h2 := h.2.1 (by decide) (by decide)
  rw [h2]
  decide

/-- Claim C4 counterexample: tonnage 15, weight 10, tolerance 1 is outside the
zero-base-pieces branch (⌊15/10⌋ = 1) yet the rounded-up shipment of 20 tons
deviates from the plan by 5 > tolerance. -/
theorem shipment_tolerance_counterexample :
    (0 : ℚ) < 15 ∧ (0 : ℚ) < 10 ∧ (0 : ℚ) ≤ 1 ∧ 1 ≤ ⌊(15 : ℚ) / 10⌋ ∧
      calculate_ship_pieces 15 10 1 = (2, 20) ∧
      ¬ |(calculate_ship_pieces 15 10 1).2 - 15| ≤ 1 := by decide

/-- Claim C4 (amended): outside the zero-base-pieces branch the actual tonnage
deviates from the plan by at most `max tolerance unitWeight` (the tolerance
alone bounds the deviation only when truncation is kept; rounding up can
overshoot by up to one piece). -/
theorem shipment_deviation_bound (t w tol : ℚ) (ht : 0 < t) (hw : 0 < w)
    (htol : 0 ≤ tol) (hbase : 1 ≤ ⌊t / w⌋) :
    |(calculate_ship_pieces t w tol).2 - t| ≤ max tol w := by
  have h := (calculate_ship_pieces_cases t w tol).2 ht hw
  have h0 : ⌊t / w⌋ ≠ 0 := by omega
  have hbl : (⌊t / w⌋ : ℚ) * w ≤ t := by
    have := Int.floor_le (t / w)
    calc (⌊t / w⌋ : ℚ) * w ≤ t / w * w := by
          exact mul_le_mul_of_nonneg_right this (le_of_lt hw)
      _ = t := div_mul_cancel₀ t (ne_of_gt hw)
  have hbu : t < ((⌊t / w⌋ : ℚ) + 1) * w := by
    have := Int.lt_floor_add_one (t / w)
    calc t = t / w * w := (div_mul_cancel₀ t (ne_of_gt hw)).symm
      _ < ((⌊t / w⌋ : ℚ) + 1) * w := by
          exact mul_lt_mul_of_pos_right (by exact_mod_cast this) hw
  by_cases hgt : tol < t - (⌊t / w⌋ : ℚ) * w
  · rw [h.2.1 h0 hgt]
    have hpos : 0 ≤ ((⌊t / w⌋ : ℚ) + 1) * w - t := le_of_lt (by linarith)
    rw [abs_of_nonneg hpos]
    have : ((⌊t / w⌋ : ℚ) + 1) * w - t ≤ w := by
      have : (⌊t / w⌋ : ℚ) * w ≤ t := hbl
      ring_nf
      ring_nf at this
      linarith
    exact le_trans this (le_max_right tol w)
  · rw [h.2.2.1 h0 (not_lt.mp hgt)]
    have hle : t - (⌊t / w⌋ : ℚ) * w ≤ tol := not_lt.mp hgt
    have hpos : 0 ≤ t - (⌊t / w⌋ : ℚ) * w := by linarith
    rw [abs_of_nonpos (by linarith), neg_sub]
    exact le_trans hle (le_max_left tol w)

/-- Witness for `shipment_deviation_bound`: the spec's example
tonnage 10.4, weight 2, tolerance 1 ships 10 tons, a deviation of 0.4. -/
theorem shipment_deviation_bound_witness :
    (0 : ℚ) < 52 / 5 ∧ (0 : ℚ) < 2 ∧ (0 : ℚ) ≤ 1 ∧ 1 ≤ ⌊(52 / 5 : ℚ) / 2⌋ ∧
      |(calculate_ship_pieces (52 / 5) 2 1).2 - 52 / 5| ≤ max 1 2 :=
  ⟨by decide, by decide, by decide, by decide,
    shipment_deviation_bound (52 / 5) 2 1 (by decide) (by decide) (by decide) (by decide)⟩

theorem lookup_eq_none_of_not_mem {l : List (Spec × ℚ)} {s : Spec}
    (h : s ∉ l.map Prod.fst) : l.lookup s = none := by
  induction l with
  | nil => rfl
  | cons a tl ih =>
    simp only [List.map_cons, List.mem_cons] at h
    push_neg at h
    have hne : (s == a.1) = false := beq_eq_false_iff_ne.mpr h.1
    simp [List.lookup, hne, ih h.2]

/-- Claim C7: `calculate_price_diff` is total (it is a Lean function) and every
lookup miss falls back to differential 0 with the unmodified base prices: a
missing mill/steel-type entry, a missing net or arrival price-kind entry, and
a spec absent from both present price-kind mappings (the latter contributing a
zero adjustment, so only the surcharge can alter the net price). -/
theorem price_diff_lookup_fallback (rules : Mill → SteelType → Option PriceRules)
    (mill : Mill) (steelType : SteelType) (spec : Spec) (length : LenLabel)
    (baseNet baseArrival : ℚ) (enable : Bool) :
    (rules mill steelType = none →
      calculate_price_diff rules mill steelType spec length baseNet baseArrival enable =
        (0, baseNet, baseArrival)) ∧
    (∀ pr, rules mill steelType = some pr → pr.net = none ∨ pr.arrival = none →
      calculate_price_diff rules mill steelType spec length baseNet baseArrival enable =
        (0, baseNet, baseArrival)) ∧
    (∀ pr netMap arrivalMap, rules mill steelType = some pr →
      pr.net = some netMap → pr.arrival = some arrivalMap →
      spec ∉ netMap.map Prod.fst → spec ∉ arrivalMap.map Prod.fst →
      calculate_price_diff rules mill steelType spec length baseNet baseArrival enable =
        (if surchargeApplies enable mill length spec then (baseNet + 30 - baseArrival, baseNet + 30, baseArrival)
         else (baseNet - baseArrival, baseNet, baseArrival))) := by
  refine ⟨?_, ?_, ?_⟩
  · intro h
    simp [calculate_price_diff, h]
  · intro pr hpr hmiss
    rcases hmiss with hn | ha
    · simp [calculate_price_diff, hpr, hn]
    · rcases hn : pr.net with _ | netMap
      · simp [calculate_price_diff, hpr, hn]
      · simp [calculate_price_diff, hpr, hn, ha]
  · intro pr netMap arrivalMap hpr hn ha hnm ham
    have h1 : lookupAddition netMap spec = 0 := by
      simp [lookupAddition, lookup_eq_none_of_not_mem hnm]
    have h2 : lookupAddition arrivalMap spec = 0 := by
      simp [lookupAddition, lookup_eq_none_of_not_mem ham]
    by_cases hs : surchargeApplies enable mill length spec
    · simp [calculate_price_diff, hpr, hn, ha, h1, h2, hs]
    · simp [calculate_price_diff, hpr, hn, ha, h1, h2, hs]

/-- Witness for `price_diff_lookup_fallback`: a rule set with an empty net map
and an absent arrival map falls back to the base prices. -/
theorem price_diff_lookup_fallback_witness :
    calculate_price_diff (fun _ _ => some ⟨some [], none⟩) "徐钢" "螺纹钢" "HRB400E12" "12m"
        100 90 true = (0, 100, 90) :=
  (price_diff_lookup_fallback (fun _ _ => some ⟨some [], none⟩) "徐钢" "螺纹钢" "HRB400E12"
    "12m" 100 90 true).2.1 ⟨some [], none⟩ rfl (Or.inr rfl)

theorem surchargeApplies_false (mill : Mill) (length : LenLabel) (spec : Spec) :
    surchargeApplies false mill length spec = false := by
  simp [surchargeApplies]

/-- Claim C8: disabling the surcharge flag never increases the differential,
and on inputs matching the surcharge predicate (with the rule lookup
succeeding) the disabled net price is exactly the 30-yuan surcharge lower. -/
theorem surcharge_toggle_monotone (rules : Mill → SteelType → Option PriceRules)
    (mill : Mill) (steelType : SteelType) (spec : Spec) (length : LenLabel)
    (baseNet baseArrival : ℚ) :
    (calculate_price_diff rules mill steelType spec length baseNet baseArrival false).1 ≤
      (calculate_price_diff rules mill steelType spec length baseNet baseArrival true).1 ∧
    (∀ pr netMap arrivalMap, rules mill steelType = some pr →
      pr.net = some netMap → pr.arrival = some arrivalMap →
      surchargeApplies true mill length spec = true →
      (calculate_price_diff rules mill steelType spec length baseNet baseArrival false).2.1 + 30 =
        (calculate_price_diff rules mill steelType spec length baseNet baseArrival true).2.1) := by
  constructor
  · rcases h : rules mill steelType with _ | pr
    · simp [calculate_price_diff, h]
    · rcases hn : pr.net with _ | netMap
      · simp [calculate_price_diff, h, hn]
      · rcases ha : pr.arrival with _ | arrivalMap
        · simp [calculate_price_diff, h, hn, ha]
        · simp only [calculate_price_diff, h, hn, ha, surchargeApplies_false,
            Bool.false_eq_true, if_false]
          split
          · linarith
          · linarith
  · intro pr netMap arrivalMap h hn ha hs
    simp only [calculate_price_diff, h, hn, ha, hs, surchargeApplies_false,
      if_true, if_false, Bool.false_eq_true]
    try ring

/-- Witness for `surcharge_toggle_monotone`: 徐钢 12m HRB400E12 with a present
(empty-additions) rule set gains exactly 30 on the net price. -/
theorem surcharge_toggle_monotone_witness :
    (calculate_price_diff (fun _ _ => some ⟨some [], some []⟩) "徐钢" "螺纹钢" "HRB400E12"
        "12m" 100 90 false).1 ≤
      (calculate_price_diff (fun _ _ => some ⟨some [], some []⟩) "徐钢" "螺纹钢" "HRB400E12"
        "12m" 100 90 true).1 ∧
    (calculate_price_diff (fun _ _ => some ⟨some [], some []⟩) "徐钢" "螺纹钢" "HRB400E12"
        "12m" 100 90 false).2.1 + 30 =
      (calculate_price_diff (fun _ _ => some ⟨some [], some []⟩) "徐钢" "螺纹钢" "HRB400E12"
        "12m" 100 90 true).2.1 :=
  ⟨(surcharge_toggle_monotone (fun _ _ => some ⟨some [], some []⟩) "徐钢" "螺纹钢" "HRB400E12"
      "12m" 100 90).1,
   (surcharge_toggle_monotone (fun _ _ => some ⟨some [], some []⟩) "徐钢" "螺纹钢" "HRB400E12"
      "12m" 100 90).2 ⟨some [], some []⟩ [] [] rfl rfl rfl (by decide)⟩

/-- Claim C10: with the flag enabled, the net price differs from the disabled
run by exactly 30 precisely on the predicate (eligible mill, length 12m,
eligible spec) whenever the rule lookup succeeds; the arrival price never
receives a surcharge; no non-matching combination is ever surcharged (in any
lookup path); and the predicate is exactly the hardcoded mill/spec sets. -/
theorem surcharge_rule_exact (rules : Mill → SteelType → Option PriceRules)
    (mill : Mill) (steelType : SteelType) (spec : Spec) (length : LenLabel)
    (baseNet baseArrival : ℚ) :
    (∀ pr netMap arrivalMap, rules mill steelType = some pr →
      pr.net = some netMap → pr.arrival = some arrivalMap →
      (calculate_price_diff rules mill steelType spec length baseNet baseArrival true).2.1 -
        (calculate_price_diff rules mill steelType spec length baseNet baseArrival false).2.1 =
        if surchargeApplies true mill length spec then 30 else 0) ∧
    ((calculate_price_diff rules mill steelType spec length baseNet baseArrival true).2.2 =
      (calculate_price_diff rules mill steelType spec length baseNet baseArrival false).2.2) ∧
    (surchargeApplies true mill length spec = false →
      (calculate_price_diff rules mill steelType spec length baseNet baseArrival true).2.1 =
        (calculate_price_diff rules mill steelType spec length baseNet baseArrival false).2.1) ∧
    (surchargeApplies true mill length spec = true ↔
      (mill = "徐钢" ∨ mill = "河南闽源" ∨ mill = "中新") ∧ length = "12m" ∧
        (spec = "HRB400E12" ∨ spec = "HRB400E14" ∨ spec = "HRB400E16" ∨ spec = "HRB400E18" ∨
         spec = "HRB400E20" ∨ spec = "HRB400E22" ∨ spec = "HRB400E25")) := by
  refine ⟨?_, ?_, ?_, ?_⟩
  · intro pr netMap arrivalMap h hn ha
    by_cases hs : surchargeApplies true mill length spec
    · simp only [calculate_price_diff, h, hn, ha, hs, surchargeApplies_false,
        if_true, if_false, Bool.false_eq_true]
      ring
    · simp [calculate_price_diff, h, hn, ha, hs, surchargeApplies_false]
  · rcases h : rules mill steelType with _ | pr
    · simp [calculate_price_diff, h]
    · rcases hn : pr.net with _ | netMap
      · simp [calculate_price_diff, h, hn]
      · rcases ha : pr.arrival with _ | arrivalMap
        · simp [calculate_price_diff, h, hn, ha]
        · simp [calculate_price_diff, h, hn, ha]
  · intro hs
    rcases h : rules mill steelType with _ | pr
    · simp [calculate_price_diff, h]
    · rcases hn : pr.net with _ | netMap
      · simp [calculate_price_diff, h, hn]
      · rcases ha : pr.arrival with _ | arrivalMap
        · simp [calculate_price_diff, h, hn, ha]
        · simp [calculate_price_diff, h, hn, ha, hs, surchargeApplies_false]
  · simp only [surchargeApplies, surchargeMills, surchargeSpecs, Bool.and_eq_true,
      List.elem_iff, beq_iff_eq, List.mem_cons,
      List.mem_singleton, List.not_mem_nil, or_false, true_and]
    tauto

/-- Witness for `surcharge_rule_exact`: at 中新 12m HRB400E25 with a present
rule set the enabled net price is exactly 30 above the disabled one. -/
theorem surcharge_rule_exact_witness :
    (calculate_price_diff (fun _ _ => some ⟨some [], some []⟩) "中新" "螺纹钢" "HRB400E25"
        "12m" 200 150 true).2.1 -
      (calculate_price_diff (fun _ _ => some ⟨some [], some []⟩) "中新" "螺纹钢" "HRB400E25"
        "12m" 200 150 false).2.1 =
      if surchargeApplies true "中新" "12m" "HRB400E25" then 30 else 0 :=
  (surcharge_rule_exact (fun _ _ => some ⟨some [], some []⟩) "中新" "螺纹钢" "HRB400E25"
    "12m" 200 150).1 ⟨some [], some []⟩ [] [] rfl rfl rfl

end BasicFacts

section OrderLemmas

theorem charListLt_irrefl : ∀ l : List Char, charListLt l l = false
  | [] => rfl
  | a :: as => by simp [charListLt, charListLt_irrefl as]

theorem charListLt_trans : ∀ {a b c : List Char},
    charListLt a b = true → charListLt b c = true → charListLt a c = true
  | [], _, _ :: _, _, _ => rfl
  | [], [], [], _, h => h
  | [], _ :: _, [], _, h => by simp [charListLt] at h
  | _ :: _, [], _, h, _ => by simp [charListLt] at h
  | _ :: _, _ :: _, [], _, h => by simp [charListLt] at h
  | x :: xs, y :: ys, z :: zs, hab, hbc => by
    simp only [charListLt] at hab hbc ⊢
    rcases lt_trichotomy x y with hxy | hxy | hxy
    · rcases lt_trichotomy y z with hyz | hyz | hyz
      · rw [if_pos (lt_trans hxy hyz)]
      · subst hyz
        rw [if_pos hxy]
      · rw [if_neg (lt_asymm hyz), if_pos hyz] at hbc
        exact absurd hbc (by simp)
    · subst hxy
      rw [if_neg (lt_irrefl x), if_neg (lt_irrefl x)] at hab
      rcases lt_trichotomy x z with hxz | hxz | hxz
      · rw [if_pos hxz]
      · subst hxz
        rw [if_neg (lt_irrefl x), if_neg (lt_irrefl x)] at hbc ⊢
        exact charListLt_trans hab hbc
      · rw [if_neg (asymm hxz), if_pos hxz] at hbc
        exact absurd hbc (by simp)
    · rw [if_neg (asymm hxy), if_pos hxy] at hab
      exact absurd hab (by simp)

theorem charListLt_trichotomy : ∀ a b : List Char,
    charListLt a b = true ∨ a = b ∨ charListLt b a = true
  | [], [] => Or.inr (Or.inl rfl)
  | [], _ :: _ => Or.inl rfl
  | _ :: _, [] => Or.inr (Or.inr rfl)
  | x :: xs, y :: ys => by
    rcases lt_trichotomy x y with h | h | h
    · exact Or.inl (by simp [charListLt, h])
    · subst h
      rcases charListLt_trichotomy xs ys with h2 | h2 | h2
      · exact Or.inl (by simp [charListLt, lt_irrefl, h2])
      · exact Or.inr (Or.inl (by rw [h2]))
      · exact Or.inr (Or.inr (by simp [charListLt, lt_irrefl, h2]))
    · exact Or.inr (Or.inr (by simp [charListLt, h]))

theorem string_eq_of_data_eq {a b : String} (h : a.data = b.data) : a = b := by
  cases a; cases b; simp_all

theorem strLt_irrefl (a : String) : strLt a a = false := charListLt_irrefl a.data

theorem strLt_trans {a b c : String} (h1 : strLt a b = true) (h2 : strLt b c = true) :
    strLt a c = true := charListLt_trans h1 h2

theorem strLt_trichotomy (a b : String) :
    strLt a b = true ∨ a = b ∨ strLt b a = true := by
  rcases charListLt_trichotomy a.data b.data with h | h | h
  · exact Or.inl h
  · exact Or.inr (Or.inl (string_eq_of_data_eq h))
  · exact Or.inr (Or.inr h)

instance : IsTotal Row rowLe := by
  constructor
  intro a b
  rcases strLt_trichotomy a.building b.building with h | h | h
  · exact Or.inl (Or.inl h)
  · rcases lt_trichotomy a.specSort b.specSort with h2 | h2 | h2
    · exact Or.inl (Or.inr ⟨h, Or.inl h2⟩)
    · rcases le_total b.priceDiff a.priceDiff with h3 | h3
      · exact Or.inl (Or.inr ⟨h, Or.inr ⟨h2, h3⟩⟩)
      · exact Or.inr (Or.inr ⟨h.symm, Or.inr ⟨h2.symm, h3⟩⟩)
    · exact Or.inr (Or.inr ⟨h.symm, Or.inl h2⟩)
  · exact Or.inr (Or.inl h)

instance : IsTrans Row rowLe := by
  constructor
  intro a b c hab hbc
  rcases hab with hab | ⟨hab, hab2⟩
  · rcases hbc with hbc | ⟨hbc, _⟩
    · exact Or.inl (strLt_trans hab hbc)
    · exact Or.inl (hbc ▸ hab)
  · rcases hbc with hbc | ⟨hbc, hbc2⟩
    · exact Or.inl (hab ▸ hbc)
    · refine Or.inr ⟨hab.trans hbc, ?_⟩
      rcases hab2 with h1 | ⟨h1, h1d⟩
      · rcases hbc2 with h2 | ⟨h2, _⟩
        · exact Or.inl (lt_trans h1 h2)
        · exact Or.inl (h2 ▸ h1)
      · rcases hbc2 with h2 | ⟨h2, h2d⟩
        · exact Or.inl (h1 ▸ h2)
        · exact Or.inr ⟨h1.trans h2, le_trans h2d h1d⟩

end OrderLemmas

section MaxLemmas

theorem le_foldl_max : ∀ (t : List ℚ) (a : ℚ), a ≤ t.foldl max a
  | [], _ => le_refl _
  | b :: t, a => le_trans (le_max_left a b) (le_foldl_max t (max a b))

theorem mem_le_foldl_max {x : ℚ} : ∀ (t : List ℚ) (a : ℚ), x ∈ t → x ≤ t.foldl max a
  | [], _, hx => absurd hx (List.not_mem_nil x)
  | b :: t, a, hx => by
    rcases List.mem_cons.mp hx with h | h
    · subst h
      exact le_trans (le_max_right a x) (le_foldl_max t (max a x))
    · exact mem_le_foldl_max t (max a b) h

theorem foldl_max_choice : ∀ (t : List ℚ) (a : ℚ), t.foldl max a = a ∨ t.foldl max a ∈ t
  | [], _ => Or.inl rfl
  | b :: t, a => by
    rcases foldl_max_choice t (max a b) with h | h
    · rw [List.foldl_cons, h]
      rcases max_choice a b with h2 | h2
      · exact Or.inl h2
      · exact Or.inr (by rw [h2]; exact List.mem_cons_self b t)
    · exact Or.inr (List.mem_cons_of_mem b h)

theorem maxD_mem {l : List ℚ} (h : l ≠ []) : maxD l ∈ l := by
  cases l with
  | nil => exact absurd rfl h
  | cons a t =>
    rcases foldl_max_choice t a with h2 | h2
    · show t.foldl max a ∈ a :: t
      rw [h2]
      exact List.mem_cons_self a t
    · exact List.mem_cons_of_mem a h2

theorem le_maxD {l : List ℚ} {x : ℚ} (hx : x ∈ l) : x ≤ maxD l := by
  cases l with
  | nil => exact absurd hx (List.not_mem_nil x)
  | cons a t =>
    rcases List.mem_cons.mp hx with h | h
    · exact h ▸ le_foldl_max t a
    · exact mem_le_foldl_max t a h

theorem eq_maxD_iff {l : List ℚ} {x : ℚ} (hx : x ∈ l) :
    x = maxD l ↔ ∀ y ∈ l, y ≤ x := by
  constructor
  · intro h y hy
    exact h ▸ le_maxD hy
  · intro h
    exact le_antisymm (le_maxD hx) (h _ (maxD_mem (List.ne_nil_of_mem hx)))

end MaxLemmas

section ListLemmas

theorem filterMap_eq_map_filter {α β : Type} (f : α → Option β) (p : α → Bool) (g : α → β) :
    ∀ l : List α, (∀ x ∈ l, f x = if p x then some (g x) else none) →
      l.filterMap f = (l.filter p).map g
  | [], _ => rfl
  | a :: t, h => by
    have ha := h a (List.mem_cons_self a t)
    have ht := filterMap_eq_map_filter f p g t (fun x hx => h x (List.mem_cons_of_mem a hx))
    by_cases hp : p a
    · rw [List.filterMap_cons, ha, if_pos hp, List.filter_cons_of_pos hp, List.map_cons, ht]
    · rw [List.filterMap_cons, ha, if_neg hp]
      simp only [hp]
      rw [List.filter_cons_of_neg (by simp [hp]), ht]

theorem flatMap_eq_nil {α β : Type} (f : α → List β) :
    ∀ l : List α, (∀ x ∈ l, f x = []) → l.flatMap f = []
  | [], _ => rfl
  | a :: t, h => by
    rw [List.flatMap_cons, h a (List.mem_cons_self a t),
      flatMap_eq_nil f t (fun x hx => h x (List.mem_cons_of_mem a hx)), List.nil_append]

theorem filterMap_map_key_sublist {α κ : Type} (f : κ → Option α) (keyOf : α → κ) :
    ∀ keys : List κ, (∀ k r, f k = some r → keyOf r = k) →
      List.Sublist ((keys.filterMap f).map keyOf) keys
  | [], _ => List.Sublist.refl []
  | k :: t, h => by
    have ht := filterMap_map_key_sublist f keyOf t
      (fun k2 r2 h2 => h k2 r2 h2)
    rcases hk : f k with _ | r
    · rw [List.filterMap_cons, hk]
      exact List.Sublist.cons k ht
    · rw [List.filterMap_cons, hk, List.map_cons, h k r hk]
      exact List.Sublist.cons₂ k ht

end ListLemmas

section RowLemmas

theorem applyFlag_building (L : List Row) (r : Row) :
    (applyFlag L r).building = r.building := rfl

theorem applyFlag_spec (L : List Row) (r : Row) : (applyFlag L r).spec = r.spec := rfl

theorem applyFlag_specSort (L : List Row) (r : Row) :
    (applyFlag L r).specSort = r.specSort := rfl

theorem applyFlag_priceDiff (L : List Row) (r : Row) :
    (applyFlag L r).priceDiff = r.priceDiff := rfl

theorem applyFlag_isOutOfStock (L : List Row) (r : Row) :
    (applyFlag L r).isOutOfStock = r.isOutOfStock := rfl

theorem applyFlag_planTonnage (L : List Row) (r : Row) :
    (applyFlag L r).planTonnage = r.planTonnage := rfl

theorem applyFlag_shipPieces (L : List Row) (r : Row) :
    (applyFlag L r).shipPieces = r.shipPieces := rfl

theorem applyFlag_shipWeight (L : List Row) (r : Row) :
    (applyFlag L r).shipWeight = r.shipWeight := rfl

theorem applyFlag_profit (L : List Row) (r : Row) : (applyFlag L r).profit = r.profit := rfl

theorem applyFlag_mill (L : List Row) (r : Row) : (applyFlag L r).mill = r.mill := rfl

theorem applyFlag_length (L : List Row) (r : Row) :
    (applyFlag L r).length = r.length := rfl

theorem applyFlag_isMaxDiff (L : List Row) (r : Row) :
    (applyFlag L r).isMaxDiff =
      decide (r.priceDiff = maxD (groupDiffs L r.building r.spec)) := rfl

theorem groupDiffs_map_applyFlag (L0 L : List Row) (b : Building) (s : Spec) :
    groupDiffs (L.map (applyFlag L0)) b s = groupDiffs L b s := by
  unfold groupDiffs
  rw [List.filter_map, List.map_map]
  rfl

theorem mem_groupDiffs {rows : List Row} {b : Building} {s : Spec} {d : ℚ} :
    d ∈ groupDiffs rows b s ↔
      ∃ r ∈ rows, r.building = b ∧ r.spec = s ∧ r.priceDiff = d := by
  simp only [groupDiffs, List.mem_map, List.mem_filter, decide_eq_true_eq]
  tauto

theorem self_mem_groupDiffs {rows : List Row} {r : Row} (h : r ∈ rows) :
    r.priceDiff ∈ groupDiffs rows r.building r.spec :=
  mem_groupDiffs.mpr ⟨r, h, rfl, rfl, rfl⟩

theorem sortedCandidates_perm (I : Inputs) :
    List.Perm (sortedCandidates I) (rawCandidates I) :=
  List.perm_insertionSort _ _

theorem mem_sortedCandidates {I : Inputs} {r : Row} :
    r ∈ sortedCandidates I ↔ r ∈ rawCandidates I :=
  (sortedCandidates_perm I).mem_iff

theorem mem_generate {I : Inputs} {r : Row} :
    r ∈ generate_manual_pricing_table I ↔
      ∃ r0 ∈ sortedCandidates I, applyFlag (sortedCandidates I) r0 = r :=
  List.mem_map

theorem mem_generate_raw {I : Inputs} {r : Row} :
    r ∈ generate_manual_pricing_table I ↔
      ∃ r0 ∈ rawCandidates I, applyFlag (sortedCandidates I) r0 = r := by
  rw [mem_generate]
  constructor
  · rintro ⟨r0, h0, he⟩
    exact ⟨r0, mem_sortedCandidates.mp h0, he⟩
  · rintro ⟨r0, h0, he⟩
    exact ⟨r0, mem_sortedCandidates.mpr h0, he⟩

theorem groupDiffs_generate (I : Inputs) (b : Building) (s : Spec) :
    groupDiffs (generate_manual_pricing_table I) b s = groupDiffs (sortedCandidates I) b s :=
  groupDiffs_map_applyFlag _ _ b s

theorem generate_flag {I : Inputs} {r : Row} (h : r ∈ generate_manual_pricing_table I) :
    r.isMaxDiff = decide (r.priceDiff =
      maxD (groupDiffs (generate_manual_pricing_table I) r.building r.spec)) := by
  obtain ⟨r0, h0, rfl⟩ := mem_generate.mp h
  rw [applyFlag_isMaxDiff, applyFlag_building, applyFlag_spec, applyFlag_priceDiff,
    groupDiffs_generate]

end RowLemmas

section LineLemmas

theorem validRowsFor_eq_map (I : Inputs) (b : Building) (s : Spec) (t : ℚ) :
    validRowsFor I b s t = (validPairs I s).map (fun ml => mkValidRow I b s t ml.1 ml.2) := by
  unfold validRowsFor validPairs
  rw [List.map_flatMap]
  congr 1
  funext mill
  rcases hbp : I.basePrices mill (steelTypeOf s) with _ | bp
  · simp only [hbp, List.map_nil]
  · simp only [hbp, List.map_map]
    refine filterMap_eq_map_filter _ _ _ _ ?_
    intro len hlen
    dsimp only
    by_cases hpd : (calculate_price_diff I.rules mill (steelTypeOf s) s len
        bp.net bp.arrival I.enable12m).1 ≤ 0
    · simp [hpd]
    · rcases hw : get_weight mill s len I.weights with _ | w
      · simp [hpd, hw]
      · by_cases hw0 : w ≤ 0
        · simp [hpd, hw, hw0]
        · simp [hpd, hw, hw0]

theorem validRowsFor_eq_nil_iff (I : Inputs) (b : Building) (s : Spec) (t : ℚ) :
    validRowsFor I b s t = [] ↔ validPairs I s = [] := by
  rw [validRowsFor_eq_map]
  simp

theorem lineRows_deg (I : Inputs) (b : Building) (s : Spec) (t : ℚ) (h : degCond I s) :
    lineRows I b s t = [degRow "无库存" b s t] ∨
      lineRows I b s t = [degRow "无有效价差" b s t] := by
  unfold lineRows
  by_cases hin : s ∈ allAvailableSpecs I.avail
  · right
    rcases h with h | h
    · exact absurd hin h
    · have he : validRowsFor I b s t = [] := (validRowsFor_eq_nil_iff I b s t).mpr h
      simp [hin, he]
  · left
    simp [hin]

theorem lineRows_valid (I : Inputs) (b : Building) (s : Spec) (t : ℚ) (h : ¬ degCond I s) :
    lineRows I b s t = validRowsFor I b s t := by
  rw [degCond, not_or, not_not] at h
  obtain ⟨h1, h2⟩ := h
  have hne : ¬ (validRowsFor I b s t).isEmpty = true := by
    rw [List.isEmpty_iff]
    intro he
    exact h2 ((validRowsFor_eq_nil_iff I b s t).mp he)
  unfold lineRows
  rw [if_pos h1, if_neg hne]

theorem mem_lineRows_fields {I : Inputs} {b : Building} {s : Spec} {t : ℚ} {r : Row}
    (h : r ∈ lineRows I b s t) :
    r.building = b ∧ r.spec = s ∧ r.specSort = specSortKey s := by
  by_cases hd : degCond I s
  · rcases lineRows_deg I b s t hd with he | he <;> rw [he] at h <;>
      rw [List.mem_singleton] at h <;> subst h <;> exact ⟨rfl, rfl, rfl⟩
  · rw [lineRows_valid I b s t hd, validRowsFor_eq_map] at h
    obtain ⟨ml, _, rfl⟩ := List.mem_map.mp h
    exact ⟨rfl, rfl, rfl⟩

theorem mem_lineRows_oos {I : Inputs} {b : Building} {s : Spec} {t : ℚ} {r : Row}
    (h : r ∈ lineRows I b s t) :
    r.isOutOfStock = true ↔ degCond I s := by
  by_cases hd : degCond I s
  · rcases lineRows_deg I b s t hd with he | he <;> rw [he] at h <;>
      rw [List.mem_singleton] at h <;> subst h <;>
      exact ⟨fun _ => hd, fun _ => rfl⟩
  · rw [lineRows_valid I b s t hd, validRowsFor_eq_map] at h
    obtain ⟨ml, _, rfl⟩ := List.mem_map.mp h
    simp only [mkValidRow]
    constructor
    · intro hfalse
      exact absurd hfalse (by simp)
    · intro hdeg
      exact absurd hdeg hd

theorem mem_lineRows_deg_fields {I : Inputs} {b : Building} {s : Spec} {t : ℚ} {r : Row}
    (h : r ∈ lineRows I b s t) (ho : r.isOutOfStock = true) :
    r.priceDiff = 0 ∧ r.shipPieces = 0 ∧ r.shipWeight = 0 ∧ r.profit = 0 := by
  have hd : degCond I s := (mem_lineRows_oos h).mp ho
  rcases lineRows_deg I b s t hd with he | he <;> rw [he] at h <;>
    rw [List.mem_singleton] at h <;> subst h <;> exact ⟨rfl, rfl, rfl, rfl⟩

theorem mem_rawCandidates {I : Inputs} {r : Row} :
    r ∈ rawCandidates I ↔
      ∃ be ∈ I.plan, ∃ st ∈ be.2, r ∈ lineRows I be.1 st.1 st.2 := by
  simp [rawCandidates, List.mem_flatMap]

theorem raw_specSort {I : Inputs} {r : Row} (h : r ∈ rawCandidates I) :
    r.specSort = specSortKey r.spec := by
  obtain ⟨be, _, st, _, hr⟩ := mem_rawCandidates.mp h
  obtain ⟨_, hs, hk⟩ := mem_lineRows_fields hr
  rw [hk, hs]

theorem raw_oos_iff {I : Inputs} {r : Row} (h : r ∈ rawCandidates I) :
    r.isOutOfStock = true ↔ degCond I r.spec := by
  obtain ⟨be, _, st, _, hr⟩ := mem_rawCandidates.mp h
  have hi := mem_lineRows_oos hr
  rw [(mem_lineRows_fields hr).2.1]
  exact hi

theorem raw_deg_fields {I : Inputs} {r : Row} (h : r ∈ rawCandidates I)
    (ho : r.isOutOfStock = true) :
    r.priceDiff = 0 ∧ r.shipPieces = 0 ∧ r.shipWeight = 0 ∧ r.profit = 0 := by
  obtain ⟨be, _, st, _, hr⟩ := mem_rawCandidates.mp h
  exact mem_lineRows_deg_fields hr ho

theorem generate_fields {I : Inputs} {r : Row} (h : r ∈ generate_manual_pricing_table I) :
    r.specSort = specSortKey r.spec ∧
    (r.isOutOfStock = true ↔ degCond I r.spec) ∧
    (r.isOutOfStock = true →
      r.priceDiff = 0 ∧ r.shipPieces = 0 ∧ r.shipWeight = 0 ∧ r.profit = 0) := by
  obtain ⟨r0, h0, rfl⟩ := mem_generate_raw.mp h
  rw [applyFlag_specSort, applyFlag_spec, applyFlag_isOutOfStock, applyFlag_priceDiff,
    applyFlag_shipPieces, applyFlag_shipWeight, applyFlag_profit]
  exact ⟨raw_specSort h0, raw_oos_iff h0, raw_deg_fields h0⟩

end LineLemmas

section ClaimRanking

/-- Claim C2: in every (demandGroup, spec) group containing a non-degenerate
row, a row carries the best-in-group flag exactly when its differential is
greatest in the group, so all tied rows are flagged, not just the first. -/
theorem best_in_group_iff (I : Inputs) (b : Building) (s : Spec)
    (hex : ∃ r0 ∈ generate_manual_pricing_table I,
      r0.building = b ∧ r0.spec = s ∧ r0.isOutOfStock = false)
    {r : Row} (hr : r ∈ generate_manual_pricing_table I) (hb : r.building = b)
    (hs : r.spec = s) :
    r.isMaxDiff = true ↔
      ∀ r2 ∈ generate_manual_pricing_table I, r2.building = b → r2.spec = s →
        r2.priceDiff ≤ r.priceDiff := by
  have hflag := generate_flag hr
  rw [hb, hs] at hflag
  have hmem : r.priceDiff ∈ groupDiffs (generate_manual_pricing_table I) b s := by
    have h0 := self_mem_groupDiffs hr
    rwa [hb, hs] at h0
  rw [hflag, decide_eq_true_eq, eq_maxD_iff hmem]
  constructor
  · intro h r2 h2 h2b h2s
    exact h _ (mem_groupDiffs.mpr ⟨r2, h2, h2b, h2s, rfl⟩)
  · intro h y hy
    obtain ⟨r2, h2, h2b, h2s, rfl⟩ := mem_groupDiffs.mp hy
    exact h r2 h2 h2b h2s

/-- Witness for `best_in_group_iff` on the two-way tie `inputTie`. -/
theorem best_in_group_iff_witness :
    rowTieA.isMaxDiff = true ↔
      ∀ r2 ∈ generate_manual_pricing_table inputTie, r2.building = "1" →
        r2.spec = "HRB400E12" → r2.priceDiff ≤ rowTieA.priceDiff :=
  best_in_group_iff inputTie "1" "HRB400E12"
    ⟨rowTieA, by decide, by decide, by decide, by decide⟩ (by decide) (by decide) (by decide)

/-- Claim C5 counterexample: in `inputNoStock` the degenerate 无库存 row is the
sole row of its group and the groupwise flagging marks it best-in-group, so a
degenerate row does carry `is_max_diff`. -/
theorem degenerate_flagged_counterexample :
    ¬ (∀ r ∈ generate_manual_pricing_table inputNoStock,
        r.isOutOfStock = true → r.isMaxDiff = false) := by decide

/-- Claim C5 (amended): a degenerate row never shares its (demandGroup, spec)
group with a non-degenerate row — every row of its group is degenerate with
differential 0 — and is itself always marked best-in-group by the groupwise
maximum computation. -/
theorem degenerate_rows_flagged (I : Inputs) {r : Row}
    (hr : r ∈ generate_manual_pricing_table I) (hd : r.isOutOfStock = true) :
    r.isMaxDiff = true ∧
      ∀ r2 ∈ generate_manual_pricing_table I, r2.building = r.building →
        r2.spec = r.spec → r2.isOutOfStock = true ∧ r2.priceDiff = 0 := by
  have hdeg : degCond I r.spec := ((generate_fields hr).2.1).mp hd
  have hgrp : ∀ r2 ∈ generate_manual_pricing_table I, r2.spec = r.spec →
      r2.isOutOfStock = true ∧ r2.priceDiff = 0 := by
    intro r2 h2 hsp
    have ho2 : r2.isOutOfStock = true := by
      refine ((generate_fields h2).2.1).mpr ?_
      rw [hsp]
      exact hdeg
    exact ⟨ho2, ((generate_fields h2).2.2 ho2).1⟩
  constructor
  · have hflag := generate_flag hr
    have hmem := self_mem_groupDiffs hr
    have hall : ∀ y ∈ groupDiffs (generate_manual_pricing_table I) r.building r.spec,
        y ≤ r.priceDiff := by
      intro y hy
      obtain ⟨r2, h2, h2b, h2s, rfl⟩ := mem_groupDiffs.mp hy
      simp [(hgrp r2 h2 h2s).2, ((generate_fields hr).2.2 hd).1]
    rw [hflag, decide_eq_true_eq]
    exact (eq_maxD_iff hmem).mpr hall
  · intro r2 h2 _ hsp
    exact hgrp r2 h2 hsp

/-- Witness for `degenerate_rows_flagged` on `inputNoStock`. -/
theorem degenerate_rows_flagged_witness :
    rowNoStock.isMaxDiff = true ∧
      ∀ r2 ∈ generate_manual_pricing_table inputNoStock,
        r2.building = rowNoStock.building → r2.spec = rowNoStock.spec →
          r2.isOutOfStock = true ∧ r2.priceDiff = 0 :=
  degenerate_rows_flagged inputNoStock (by decide) (by decide)

end ClaimRanking

section SummaryLemmas

theorem mem_validTable {rows : List Row} {r : Row} :
    r ∈ validTable rows ↔ r ∈ rows ∧ r.isOutOfStock = false := by
  simp [validTable, List.mem_filter]

theorem groupDiffs_eq_groupRows_map (rows : List Row) (b : Building) (s : Spec) :
    groupDiffs rows b s = (groupRows rows (b, s)).map (fun x => x.priceDiff) := rfl

theorem groupRows_validTable {I : Inputs} {r : Row}
    (hr : r ∈ generate_manual_pricing_table I) (ho : r.isOutOfStock = false) :
    groupRows (validTable (generate_manual_pricing_table I)) (r.building, r.spec) =
      groupRows (generate_manual_pricing_table I) (r.building, r.spec) := by
  unfold groupRows validTable
  rw [List.filter_filter]
  apply List.filter_congr
  intro x hx
  by_cases hk : x.building = r.building ∧ x.spec = r.spec
  · have hx_oos : x.isOutOfStock = false := by
      by_contra hne
      rw [Bool.not_eq_false] at hne
      have hdeg : degCond I x.spec := ((generate_fields hx).2.1).mp hne
      have hro : r.isOutOfStock = true := by
        refine ((generate_fields hr).2.1).mpr ?_
        rw [← hk.2]
        exact hdeg
      rw [hro] at ho
      exact absurd ho (by simp)
    simp [hk.1, hk.2, hx_oos]
  · have : ¬ (x.building = (r.building, r.spec).1 ∧ x.spec = (r.building, r.spec).2) := hk
    simp only [decide_eq_false this, Bool.false_and]

theorem mem_summaryRows {I : Inputs} {r : Row} (h : r ∈ summaryRows I) :
    r ∈ generate_manual_pricing_table I ∧ r.isOutOfStock = false ∧ r.isMaxDiff = true := by
  unfold summaryRows at h
  obtain ⟨k, hk, hfm⟩ := List.mem_filterMap.mp h
  obtain ⟨kb, ks⟩ := k
  unfold firstMaxRow at hfm
  have hmem := List.mem_of_find?_eq_some hfm
  have hpred := List.find?_some hfm
  rw [decide_eq_true_eq] at hpred
  have hrv : r ∈ validTable (generate_manual_pricing_table I) :=
    (List.mem_filter.mp hmem).1
  have hkey : r.building = kb ∧ r.spec = ks := by
    have h2 := (List.mem_filter.mp hmem).2
    rwa [decide_eq_true_eq] at h2
  have hrT : r ∈ generate_manual_pricing_table I := (mem_validTable.mp hrv).1
  have hoos : r.isOutOfStock = false := (mem_validTable.mp hrv).2
  refine ⟨hrT, hoos, ?_⟩
  have hge : groupRows (validTable (generate_manual_pricing_table I)) (kb, ks) =
      groupRows (generate_manual_pricing_table I) (kb, ks) := by
    have h3 := groupRows_validTable hrT hoos
    rwa [hkey.1, hkey.2] at h3
  have hflag := generate_flag hrT
  rw [hkey.1, hkey.2] at hflag
  rw [hflag, decide_eq_true_eq, groupDiffs_eq_groupRows_map, ← hge]
  exact hpred

theorem summaryRows_keys_nodup (I : Inputs) :
    ((summaryRows I).map (fun r => (r.building, r.spec))).Nodup := by
  unfold summaryRows
  refine List.Sublist.nodup
    (filterMap_map_key_sublist _ _ _ ?_) (List.nodup_dedup _)
  intro k r hfm
  unfold firstMaxRow at hfm
  have hmem := List.mem_of_find?_eq_some hfm
  have hkey := (List.mem_filter.mp hmem).2
  rw [decide_eq_true_eq] at hkey
  obtain ⟨kb, ks⟩ := k
  exact Prod.ext hkey.1 hkey.2

theorem summaryRows_complete {I : Inputs} {r : Row}
    (hr : r ∈ generate_manual_pricing_table I) (ho : r.isOutOfStock = false) :
    ∃ r2 ∈ summaryRows I, r2.building = r.building ∧ r2.spec = r.spec := by
  have hrv : r ∈ validTable (generate_manual_pricing_table I) := mem_validTable.mpr ⟨hr, ho⟩
  have hkmem : (r.building, r.spec) ∈ groupKeys (validTable (generate_manual_pricing_table I)) :=
    List.mem_dedup.mpr (List.mem_map.mpr ⟨r, hrv, rfl⟩)
  have hgmem : r ∈ groupRows (validTable (generate_manual_pricing_table I))
      (r.building, r.spec) :=
    List.mem_filter.mpr ⟨hrv, by simp⟩
  have hmax : maxD ((groupRows (validTable (generate_manual_pricing_table I))
        (r.building, r.spec)).map (fun x => x.priceDiff)) ∈
      (groupRows (validTable (generate_manual_pricing_table I))
        (r.building, r.spec)).map (fun x => x.priceDiff) := by
    apply maxD_mem
    simp only [ne_eq, List.map_eq_nil_iff]
    exact List.ne_nil_of_mem hgmem
  obtain ⟨x, hxg, hxd⟩ := List.mem_map.mp hmax
  have hsome : (firstMaxRow (validTable (generate_manual_pricing_table I))
      (r.building, r.spec)).isSome := by
    unfold firstMaxRow
    rw [List.find?_isSome]
    exact ⟨x, hxg, by rw [decide_eq_true_eq]; exact hxd⟩
  obtain ⟨r2, hfm⟩ := Option.isSome_iff_exists.mp hsome
  have hr2mem : r2 ∈ summaryRows I := by
    unfold summaryRows
    exact List.mem_filterMap.mpr ⟨(r.building, r.spec), hkmem, hfm⟩
  have hkey : r2.building = r.building ∧ r2.spec = r.spec := by
    unfold firstMaxRow at hfm
    have hmem2 := List.mem_of_find?_eq_some hfm
    have h2 := (List.mem_filter.mp hmem2).2
    rwa [decide_eq_true_eq] at h2
  exact ⟨r2, hr2mem, hkey⟩

end SummaryLemmas

section ClaimSummary

/-- Claim C3 counterexample: on the two-way tie `inputTie` the summary totals
differ from the sums over all flagged non-degenerate rows — the tied second
row does not contribute (the source aggregates over `idxmax`, one row per
group). -/
theorem summary_tie_counterexample :
    ¬ (mainSummary inputTie =
      { planTotal := (((generate_manual_pricing_table inputTie).filter
            (fun r => r.isMaxDiff && !r.isOutOfStock)).map (fun r => r.planTonnage)).sum,
        piecesTotal := (((generate_manual_pricing_table inputTie).filter
            (fun r => r.isMaxDiff && !r.isOutOfStock)).map (fun r => r.shipPieces)).sum,
        shipTotal := (((generate_manual_pricing_table inputTie).filter
            (fun r => r.isMaxDiff && !r.isOutOfStock)).map (fun r => r.shipWeight)).sum,
        profitTotal := (((generate_manual_pricing_table inputTie).filter
            (fun r => r.isMaxDiff && !r.isOutOfStock)).map (fun r => r.profit)).sum }) := by
  decide

/-- Claim C3 (amended): the aggregate summary sums planned tonnage, shipped
pieces, shipped tonnage and profit over exactly one representative per
(demandGroup, spec) group of non-degenerate rows — the first row at the group
maximum — each representative being flagged best-in-group and non-degenerate;
every non-degenerate group is represented once, but tied best rows beyond the
first do not contribute. -/
theorem summary_over_first_best (I : Inputs) :
    (∀ r ∈ summaryRows I, r ∈ generate_manual_pricing_table I ∧
      r.isMaxDiff = true ∧ r.isOutOfStock = false) ∧
    ((summaryRows I).map (fun r => (r.building, r.spec))).Nodup ∧
    (∀ r ∈ generate_manual_pricing_table I, r.isOutOfStock = false →
      ∃ r2 ∈ summaryRows I, r2.building = r.building ∧ r2.spec = r.spec) ∧
    mainSummary I =
      { planTotal := ((summaryRows I).map (fun r => r.planTonnage)).sum,
        piecesTotal := ((summaryRows I).map (fun r => r.shipPieces)).sum,
        shipTotal := ((summaryRows I).map (fun r => r.shipWeight)).sum,
        profitTotal := ((summaryRows I).map (fun r => r.profit)).sum } := by
  refine ⟨?_, summaryRows_keys_nodup I, ?_, rfl⟩
  · intro r hr
    obtain ⟨h1, h2, h3⟩ := mem_summaryRows hr
    exact ⟨h1, h3, h2⟩
  · intro r hr ho
    exact summaryRows_complete hr ho

/-- Witness for `summary_over_first_best` on `inputTie`: the tied group is
represented in the summary rows. -/
theorem summary_over_first_best_witness :
    ∃ r2 ∈ summaryRows inputTie, r2.building = rowTieA.building ∧ r2.spec = rowTieA.spec :=
  (summary_over_first_best inputTie).2.2.1 rowTieA (by decide) (by decide)

end ClaimSummary

section ClaimSort

theorem generate_sorted (I : Inputs) : (generate_manual_pricing_table I).Sorted rowLe := by
  have hs : (sortedCandidates I).Sorted rowLe := List.sorted_insertionSort rowLe _
  unfold generate_manual_pricing_table setMaxFlags
  exact List.Pairwise.map _ (fun a b h => h) hs

/-- Claim C9 counterexample: the emitted row for spec HRB400E12 carries sort
key 40012 (all digits of the spec concatenated), not the numeric suffix 12. -/
theorem sort_key_not_suffix_counterexample :
    ¬ (∀ r ∈ generate_manual_pricing_table inputSingle,
        r.specSort = specNumericSuffix r.spec) := by decide

/-- Claim C9 (amended): every emitted row's sort key is the integer formed by
concatenating all digit characters of its spec (0 if none, so not the numeric
suffix); the table is sorted ascending by demand group, then ascending by this
key, then descending by differential (`rowLe`); within equal (demandGroup,
spec) the differential therefore descends, and degenerate rows carry
differential 0. -/
theorem table_sort_order (I : Inputs) :
    (∀ r ∈ generate_manual_pricing_table I,
      r.specSort = specSortKey r.spec ∧ (r.isOutOfStock = true → r.priceDiff = 0)) ∧
    (generate_manual_pricing_table I).Sorted rowLe ∧
    (generate_manual_pricing_table I).Pairwise
      (fun a b => a.building = b.building → a.spec = b.spec →
        b.priceDiff ≤ a.priceDiff) := by
  refine ⟨?_, generate_sorted I, ?_⟩
  · intro r hr
    exact ⟨(generate_fields hr).1, fun ho => ((generate_fields hr).2.2 ho).1⟩
  · refine List.Pairwise.imp_of_mem ?_ (generate_sorted I)
    intro a b ha hb hab
    intro hbuild hspec
    rcases hab with h | ⟨h, h2⟩
    · rw [hbuild, strLt_irrefl] at h
      exact absurd h (by simp)
    · rcases h2 with h2 | ⟨_, h3⟩
      · have ha2 := (generate_fields ha).1
        have hb2 := (generate_fields hb).1
        rw [ha2, hb2, hspec] at h2
        exact absurd h2 (lt_irrefl _)
      · exact h3

/-- Witness for `table_sort_order` on `inputSingle`. -/
theorem table_sort_order_witness :
    rowSingle.specSort = specSortKey rowSingle.spec ∧
      (rowSingle.isOutOfStock = true → rowSingle.priceDiff = 0) :=
  (table_sort_order inputSingle).1 rowSingle (by decide)

end ClaimSort

section LineFilterLemmas

theorem lineRows_filter_self (I : Inputs) (b : Building) (s : Spec) (t : ℚ) :
    (lineRows I b s t).filter (fun r => decide (r.building = b ∧ r.spec = s)) =
      lineRows I b s t :=
  List.filter_eq_self.mpr (fun r hr => by
    obtain ⟨h1, h2, _⟩ := mem_lineRows_fields hr
    simp [h1, h2])

theorem lineRows_filter_ne (I : Inputs) {b : Building} {s : Spec}
    (b2 : Building) (s2 : Spec) (t2 : ℚ) (hne : ¬ (b2 = b ∧ s2 = s)) :
    (lineRows I b2 s2 t2).filter (fun r => decide (r.building = b ∧ r.spec = s)) = [] := by
  rw [List.filter_eq_nil_iff]
  intro r hr
  obtain ⟨h1, h2, _⟩ := mem_lineRows_fields hr
  simp only [h1, h2, decide_eq_true_eq]
  exact hne

theorem filter_inner_flatMap (I : Inputs) (b : Building) :
    ∀ (sl : List (Spec × ℚ)) {s : Spec} {t : ℚ}, (s, t) ∈ sl →
      (sl.map Prod.fst).Nodup →
      (sl.flatMap (fun st => lineRows I b st.1 st.2)).filter
          (fun r => decide (r.building = b ∧ r.spec = s)) = lineRows I b s t
  | [], _, _, hmem, _ => absurd hmem (List.not_mem_nil _)
  | (s0, t0) :: tl, s, t, hmem, hnd => by
    have hnd2 : s0 ∉ tl.map Prod.fst ∧ (tl.map Prod.fst).Nodup := by
      rw [List.map_cons, List.nodup_cons] at hnd
      exact hnd
    rw [List.flatMap_cons, List.filter_append]
    rcases List.mem_cons.mp hmem with heq | hmem2
    · obtain ⟨rfl, rfl⟩ : s = s0 ∧ t = t0 := by
        rw [Prod.mk.injEq] at heq
        exact heq
      have htl : (tl.flatMap (fun st => lineRows I b st.1 st.2)).filter
          (fun r => decide (r.building = b ∧ r.spec = s)) = [] := by
        rw [List.filter_eq_nil_iff]
        intro r hr
        obtain ⟨st, hst, hrl⟩ := List.mem_flatMap.mp hr
        obtain ⟨h1, h2, _⟩ := mem_lineRows_fields hrl
        simp only [h1, h2, decide_eq_true_eq]
        rintro ⟨-, rfl⟩
        exact hnd2.1 (List.mem_map.mpr ⟨st, hst, rfl⟩)
      rw [lineRows_filter_self, htl, List.append_nil]
    · have hs0 : ¬ (b = b ∧ s0 = s) := by
        rintro ⟨-, rfl⟩
        exact hnd2.1 (List.mem_map.mpr ⟨(s0, t), hmem2, rfl⟩)
      rw [lineRows_filter_ne I b s0 t0 hs0, List.nil_append]
      exact filter_inner_flatMap I b tl hmem2 hnd2.2

theorem filter_plan_flatMap (I : Inputs) :
    ∀ (plan : List (Building × List (Spec × ℚ))) {b : Building}
      {sl : List (Spec × ℚ)}, (b, sl) ∈ plan → (plan.map Prod.fst).Nodup →
      ∀ {s : Spec},
      (plan.flatMap (fun be => be.2.flatMap (fun st => lineRows I be.1 st.1 st.2))).filter
          (fun r => decide (r.building = b ∧ r.spec = s)) =
        (sl.flatMap (fun st => lineRows I b st.1 st.2)).filter
          (fun r => decide (r.building = b ∧ r.spec = s))
  | [], _, _, hmem, _, _ => absurd hmem (List.not_mem_nil _)
  | (b0, sl0) :: tl, b, sl, hmem, hnd, s => by
    have hnd2 : b0 ∉ tl.map Prod.fst ∧ (tl.map Prod.fst).Nodup := by
      rw [List.map_cons, List.nodup_cons] at hnd
      exact hnd
    rw [List.flatMap_cons, List.filter_append]
    rcases List.mem_cons.mp hmem with heq | hmem2
    · obtain ⟨rfl, rfl⟩ : b = b0 ∧ sl = sl0 := by
        rw [Prod.mk.injEq] at heq
        exact heq
      have htl : (tl.flatMap (fun be => be.2.flatMap
          (fun st => lineRows I be.1 st.1 st.2))).filter
          (fun r => decide (r.building = b ∧ r.spec = s)) = [] := by
        rw [List.filter_eq_nil_iff]
        intro r hr
        obtain ⟨be, hbe, hr2⟩ := List.mem_flatMap.mp hr
        obtain ⟨st, hst, hrl⟩ := List.mem_flatMap.mp hr2
        obtain ⟨h1, _, _⟩ := mem_lineRows_fields hrl
        simp only [h1, decide_eq_true_eq]
        rintro ⟨rfl, -⟩
        exact hnd2.1 (List.mem_map.mpr ⟨be, hbe, rfl⟩)
      rw [htl, List.append_nil]
    · have hb0 : ∀ r ∈ sl0.flatMap (fun st => lineRows I b0 st.1 st.2),
          ¬ (decide (r.building = b ∧ r.spec = s) = true) := by
        intro r hr
        obtain ⟨st, hst, hrl⟩ := List.mem_flatMap.mp hr
        obtain ⟨h1, _, _⟩ := mem_lineRows_fields hrl
        simp only [h1, decide_eq_true_eq]
        rintro ⟨rfl, -⟩
        exact hnd2.1 (List.mem_map.mpr ⟨(b0, sl), hmem2, rfl⟩)
      rw [List.filter_eq_nil_iff.mpr hb0, List.nil_append]
      exact filter_plan_flatMap I tl hmem2 hnd2.2

theorem filter_raw (I : Inputs) (hnd1 : (I.plan.map Prod.fst).Nodup)
    {b : Building} {sl : List (Spec × ℚ)} (hbe : (b, sl) ∈ I.plan)
    (hnd2 : (sl.map Prod.fst).Nodup) {s : Spec} {t : ℚ} (hst : (s, t) ∈ sl) :
    (rawCandidates I).filter (fun r => decide (r.building = b ∧ r.spec = s)) =
      lineRows I b s t := by
  unfold rawCandidates
  rw [filter_plan_flatMap I I.plan hbe hnd1, filter_inner_flatMap I b sl hst hnd2]

theorem filter_generate (I : Inputs) (b : Building) (s : Spec) :
    (generate_manual_pricing_table I).filter
        (fun r => decide (r.building = b ∧ r.spec = s)) =
      ((sortedCandidates I).filter (fun r => decide (r.building = b ∧ r.spec = s))).map
        (applyFlag (sortedCandidates I)) := by
  unfold generate_manual_pricing_table setMaxFlags
  rw [List.filter_map]
  congr 1

end LineFilterLemmas

section ClaimDemandLine

theorem lineRows_ne_nil (I : Inputs) (b : Building) (s : Spec) (t : ℚ) :
    lineRows I b s t ≠ [] := by
  by_cases hd : degCond I s
  · rcases lineRows_deg I b s t hd with he | he <;> rw [he] <;> simp
  · rw [lineRows_valid I b s t hd]
    intro hc
    rw [degCond, not_or] at hd
    exact hd.2 ((validRowsFor_eq_nil_iff I b s t).mp hc)

/-- Claim C6 counterexample: in `inputSingle` the demand line (1, HRB400E12)
emits exactly one row, yet it has an available mill and a positive
differential — the single row is a valid candidate, not a degenerate one, so
"exactly one row iff no mill or no positive differential" fails. -/
theorem single_candidate_counterexample :
    (((generate_manual_pricing_table inputSingle).filter
        (fun r => decide (r.building = "1" ∧ r.spec = "HRB400E12"))).length = 1) ∧
    ¬ noMillOrNoPositiveDiff inputSingle "HRB400E12" ∧
    ¬ ((((generate_manual_pricing_table inputSingle).filter
          (fun r => decide (r.building = "1" ∧ r.spec = "HRB400E12"))).length = 1) ↔
        noMillOrNoPositiveDiff inputSingle "HRB400E12") := by decide

/-- Claim C6 (amended): a demand line yields exactly one row, which is the
degenerate one with zero pieces, shipped tonnage and profit, iff it has zero
available mills or zero surviving (mill, length) pairs (positive differential
together with a present positive weight and usable base prices); otherwise it
yields exactly one row per surviving pair — possibly a single valid row — and
no demand line is ever dropped. -/
theorem demand_line_rows (I : Inputs) (hnd1 : (I.plan.map Prod.fst).Nodup)
    (b : Building) (sl : List (Spec × ℚ)) (hbe : (b, sl) ∈ I.plan)
    (hnd2 : (sl.map Prod.fst).Nodup) (s : Spec) (t : ℚ) (hst : (s, t) ∈ sl) :
    ((generate_manual_pricing_table I).filter
        (fun r => decide (r.building = b ∧ r.spec = s))) ≠ [] ∧
    (degCond I s →
      ((generate_manual_pricing_table I).filter
          (fun r => decide (r.building = b ∧ r.spec = s))).length = 1 ∧
      ∀ r ∈ (generate_manual_pricing_table I).filter
          (fun r => decide (r.building = b ∧ r.spec = s)),
        r.isOutOfStock = true ∧ r.shipPieces = 0 ∧ r.shipWeight = 0 ∧ r.profit = 0) ∧
    (¬ degCond I s →
      List.Perm
        (((generate_manual_pricing_table I).filter
            (fun r => decide (r.building = b ∧ r.spec = s))).map
          (fun r => (r.mill, r.length)))
        (validPairs I s) ∧
      ∀ r ∈ (generate_manual_pricing_table I).filter
          (fun r => decide (r.building = b ∧ r.spec = s)),
        r.isOutOfStock = false) := by
  have hfg := filter_generate I b s
  have hperm : List.Perm ((sortedCandidates I).filter
      (fun r => decide (r.building = b ∧ r.spec = s))) (lineRows I b s t) := by
    have hp := (sortedCandidates_perm I).filter
      (fun r => decide (r.building = b ∧ r.spec = s))
    rwa [filter_raw I hnd1 hbe hnd2 hst] at hp
  have hlen : ((generate_manual_pricing_table I).filter
      (fun r => decide (r.building = b ∧ r.spec = s))).length =
      (lineRows I b s t).length := by
    rw [hfg, List.length_map, hperm.length_eq]
  have hmemF : ∀ r ∈ (generate_manual_pricing_table I).filter
      (fun r => decide (r.building = b ∧ r.spec = s)),
      ∃ r0 ∈ lineRows I b s t, applyFlag (sortedCandidates I) r0 = r := by
    intro r hr
    rw [hfg] at hr
    obtain ⟨r0, h0, he⟩ := List.mem_map.mp hr
    exact ⟨r0, hperm.mem_iff.mp h0, he⟩
  refine ⟨?_, ?_, ?_⟩
  · intro hc
    have h1 := hlen
    rw [hc] at h1
    exact lineRows_ne_nil I b s t (List.length_eq_zero.mp (by simpa using h1.symm))
  · intro hd
    rcases lineRows_deg I b s t hd with he | he <;>
      refine ⟨by rw [hlen, he]; rfl, ?_⟩ <;>
      intro r hr <;>
      obtain ⟨r0, h0, rfl⟩ := hmemF r hr <;>
      rw [he, List.mem_singleton] at h0 <;>
      subst h0 <;>
      exact ⟨rfl, rfl, rfl, rfl⟩
  · intro hd
    have hline := lineRows_valid I b s t hd
    constructor
    · have h1 : (((generate_manual_pricing_table I).filter
          (fun r => decide (r.building = b ∧ r.spec = s))).map
            (fun r => (r.mill, r.length))) =
          (((sortedCandidates I).filter
            (fun r => decide (r.building = b ∧ r.spec = s))).map
              (fun r => (r.mill, r.length))) := by
        rw [hfg, List.map_map]
        rfl
      rw [h1]
      have h2 := hperm.map (fun r => (r.mill, r.length))
      rw [hline, validRowsFor_eq_map, List.map_map] at h2
      have h3 : (validPairs I s).map ((fun r => (r.mill, r.length)) ∘
          (fun ml => mkValidRow I b s t ml.1 ml.2)) = validPairs I s :=
        List.map_id _
      rwa [h3] at h2
    · intro r hr
      obtain ⟨r0, h0, rfl⟩ := hmemF r hr
      rw [hline, validRowsFor_eq_map] at h0
      obtain ⟨ml, _, rfl⟩ := List.mem_map.mp h0
      rfl

/-- Witness for `demand_line_rows`: on `inputSingle` the line's rows map
exactly onto its single surviving (mill, length) pair. -/
theorem demand_line_rows_witness :
    List.Perm
      (((generate_manual_pricing_table inputSingle).filter
          (fun r => decide (r.building = "1" ∧ r.spec = "HRB400E12"))).map
        (fun r => (r.mill, r.length)))
      (validPairs inputSingle "HRB400E12") :=
  ((demand_line_rows inputSingle (by decide) "1" [("HRB400E12", 10)] (by decide)
      (by decide) "HRB400E12" 10 (by decide)).2.2 (by decide)).1

end ClaimDemandLine
